import Mathlib

/-!
Verification development for `scripts/fix-broker-names.py`: a one-shot
maintenance script that scans a DynamoDB trips table, resolves each
record's `brokerId` against a static in-process mapping, and writes the
resolved broker name back into the record with a targeted `update_item`
call.

The embedding is shallow: DynamoDB items are association lists of
string-typed attributes (the data model only involves `S`-typed values),
the table is an association list from composite keys to items, and the
script's main loop is a structurally recursive function threading a
`RunState` (the `updated`/`failed` counters, the mutated store, and the
observable trace: issued update requests, warnings, and per-item failure
logs).  Python's uncaught `KeyError` on `trip['tripId']` / `trip['brokerId']`
is modelled by the loop returning `none` (the process aborts); the caught
`update_item` exception is modelled by a per-index error oracle
`err : Nat → Bool`.
-/

namespace FixBrokerNames

/-- A DynamoDB attribute value of string type: `{'S': ...}`.  The data model
of the trips table only uses string attributes (`tripId`, `brokerId`,
`brokerName`, and the key attributes `PK`/`SK`). -/
structure AttrVal where
  S : String
deriving DecidableEq, Repr

/-- A DynamoDB item: a finite map from attribute names to values, embedded
as an association list (Python dicts have unique keys; lookup takes the
first match). -/
abbrev Item := List (String × AttrVal)

/-- The composite key of a record: partition key `PK`, sort key `SK`. -/
structure Key where
  PK : String
  SK : String
deriving DecidableEq, Repr

/-- The table contents: a finite map from composite keys to items,
embedded as an association list. -/
abbrev Store := List (Key × Item)

/-- First-match lookup in an association list (Python `dict` access /
`dict.get`). -/
def lookupA {α β : Type} [DecidableEq α] : List (α × β) → α → Option β
  | [], _ => none
  | (k, v) :: rest, a => if k = a then some v else lookupA rest a

/-- Dict assignment `d[a] = v`: replace the binding of `a` if present
(first occurrence), otherwise append a new binding. -/
def setAttr : Item → String → AttrVal → Item
  | [], a, v => [(a, v)]
  | (b, w) :: rest, a, v =>
      if b = a then (a, v) :: rest else (b, w) :: setAttr rest a v

/-- DynamoDB `update_item` with expression `SET a = v` on key `k`: if a
record with key `k` exists, set attribute `a` on it; otherwise DynamoDB
upserts a fresh record carrying its key attributes and the set attribute. -/
def updateStore : Store → Key → String → AttrVal → Store
  | [], k, a, v => [(k, [("PK", ⟨k.PK⟩), ("SK", ⟨k.SK⟩), (a, v)])]
  | (k', it) :: rest, k, a, v =>
      if k' = k then (k, setAttr it a v) :: rest
      else (k', it) :: updateStore rest k a v

-- Configuration constants of the script.

def AWS_PROFILE : String := "haul-hub"

def ENVIRONMENT : String := "dev"

def REGION : String := "us-east-1"

/-- `TRIPS_TABLE = f"HaulHub-TripsTable-{ENVIRONMENT}"`. -/
def TRIPS_TABLE : String := "HaulHub-TripsTable-" ++ ENVIRONMENT

/-- The static broker mapping `BROKER_NAMES`, verbatim from the script. -/
def BROKER_NAMES : List (String × String) :=
  [ ("broker-001", "C.H. Robinson"),
    ("broker-002", "XPO Logistics"),
    ("broker-003", "TQL (Total Quality Logistics)"),
    ("broker-004", "Coyote Logistics"),
    ("broker-005", "Echo Global Logistics"),
    ("broker-006", "Landstar System"),
    ("broker-007", "J.B. Hunt Transport Services"),
    ("broker-008", "Schneider National"),
    ("broker-009", "Werner Enterprises"),
    ("broker-010", "Knight-Swift Transportation"),
    ("broker-011", "Hub Group"),
    ("broker-012", "Transplace"),
    ("broker-013", "Arrive Logistics"),
    ("broker-014", "GlobalTranz"),
    ("broker-015", "Convoy"),
    ("broker-016", "Uber Freight"),
    ("broker-017", "Loadsmart"),
    ("broker-018", "Freightos"),
    ("broker-019", "Flexport"),
    ("broker-020", "Redwood Logistics") ]

/-- The `Key={'PK': {'S': f"TRIP#{trip_id}"}, 'SK': {'S': 'METADATA'}}`
argument of the script's `update_item` call. -/
def tripKey (tripId : String) : Key :=
  ⟨"TRIP#" ++ tripId, "METADATA"⟩

/-- One `update_item` request as issued by the script: the table name, the
composite key, the literal update expression, and the expression attribute
values. -/
structure UpdateRequest where
  table : String
  key : Key
  updateExpression : String
  exprAttrValues : List (String × AttrVal)
deriving DecidableEq, Repr

/-- The state threaded through the script's `for trip in trips` loop: the
two counters, the (mutated) store, and the observable trace — issued
update requests, warnings `(broker_id, trip_id)` for unresolvable brokers,
and `(trip_id)` entries of the `✗ Failed` log line for caught update
errors. -/
structure RunState where
  updated : Nat
  failed : Nat
  store : Store
  requests : List UpdateRequest
  warnings : List (String × String)
  errors : List String
deriving DecidableEq, Repr

/-- One iteration of the loop body for a single scanned item `trip`.
`e` tells whether the `update_item` call for this item (if issued) raises.
Returns `none` when the body raises an uncaught exception — the `KeyError`
from `trip['tripId']['S']` or `trip['brokerId']['S']`, which sit outside
the `try` block and abort the whole loop. -/
def processTrip (names : List (String × String)) (tbl : String) (e : Bool)
    (st : RunState) (trip : Item) : Option RunState :=
  match lookupA trip "tripId" with
  | none => none
  | some tv =>
    match lookupA trip "brokerId" with
    | none => none
    | some bv =>
      -- broker_name = BROKER_NAMES.get(broker_id); if not broker_name: ...
      -- Python truthiness: both `None` (key absent) and the empty string
      -- take the warning branch.
      match lookupA names bv.S with
      | none =>
          some { st with failed := st.failed + 1,
                         warnings := st.warnings ++ [(bv.S, tv.S)] }
      | some name =>
          if name.isEmpty then
            some { st with failed := st.failed + 1,
                           warnings := st.warnings ++ [(bv.S, tv.S)] }
          else
            let req : UpdateRequest :=
              { table := tbl,
                key := tripKey tv.S,
                updateExpression := "SET brokerName = :brokerName",
                exprAttrValues := [(":brokerName", ⟨name⟩)] }
            if e then
              some { st with failed := st.failed + 1,
                             requests := st.requests ++ [req],
                             errors := st.errors ++ [tv.S] }
            else
              some { st with updated := st.updated + 1,
                             store := updateStore st.store req.key
                                        "brokerName" ⟨name⟩,
                             requests := st.requests ++ [req] }

/-- The `for trip in trips` loop, strictly sequential in scan order.
`idx` is the position of the next item in the scan result; `err idx`
tells whether the `update_item` call for that item raises. -/
def runLoop (names : List (String × String)) (tbl : String)
    (err : Nat → Bool) : Nat → RunState → List Item → Option RunState
  | _, st, [] => some st
  | idx, st, trip :: rest =>
    match processTrip names tbl (err idx) st trip with
    | none => none
    | some st' => runLoop names tbl err (idx + 1) st' rest

/-- Initial run state over a given pre-run store: zero counters, empty
trace. -/
def initState (store : Store) : RunState :=
  { updated := 0, failed := 0, store := store,
    requests := [], warnings := [], errors := [] }

/-- The whole script run over one scan response page: iterate the loop
body over exactly the items of that single response, against the
configured table, starting from zero counters. -/
def run (names : List (String × String)) (err : Nat → Bool)
    (page : List Item) (store : Store) : Option RunState :=
  runLoop names TRIPS_TABLE err 0 (initState store) page

/-- Projection used in hypotheses: the `tripId` attribute of a scanned
item, when present. -/
def tripIdOf (trip : Item) : Option String :=
  (lookupA trip "tripId").map AttrVal.S

/-! ### Basic lemmas on the map operations -/

theorem lookupA_mem {α β : Type} [DecidableEq α] {l : List (α × β)} {a : α}
    {b : β} (h : lookupA l a = some b) : (a, b) ∈ l := by
  induction l with
  | nil => simp [lookupA] at h
  | cons p rest ih =>
    obtain ⟨k, v⟩ := p
    by_cases hk : k = a
    · subst hk
      simp [lookupA] at h
      simp [h]
    · simp [lookupA, hk] at h
      exact List.mem_cons_of_mem _ (ih h)

theorem lookupA_setAttr_self (it : Item) (a : String) (v : AttrVal) :
    lookupA (setAttr it a v) a = some v := by
  induction it with
  | nil => simp [setAttr, lookupA]
  | cons p rest ih =>
    obtain ⟨b, w⟩ := p
    by_cases hb : b = a
    · simp [setAttr, hb, lookupA]
    · simp [setAttr, hb, lookupA, ih]

theorem lookupA_setAttr_ne (it : Item) {a c : String} (v : AttrVal)
    (hne : c ≠ a) : lookupA (setAttr it a v) c = lookupA it c := by
  induction it with
  | nil => simp [setAttr, lookupA, Ne.symm hne]
  | cons p rest ih =>
    obtain ⟨b, w⟩ := p
    by_cases hb : b = a
    · subst hb
      simp [setAttr, lookupA, Ne.symm hne]
    · by_cases hbc : b = c
      · simp [setAttr, hb, lookupA, hbc, hne]
      · simp [setAttr, hb, lookupA, hbc, ih]

theorem setAttr_id {it : Item} {a : String} {v : AttrVal}
    (h : lookupA it a = some v) : setAttr it a v = it := by
  induction it with
  | nil => simp [lookupA] at h
  | cons p rest ih =>
    obtain ⟨b, w⟩ := p
    by_cases hb : b = a
    · subst hb
      simp [lookupA] at h
      simp [setAttr, h]
    · simp [lookupA, hb] at h
      simp [setAttr, hb, ih h]

theorem lookupA_updateStore_self (s : Store) (k : Key) (a : String)
    (v : AttrVal) :
    lookupA (updateStore s k a v) k =
      some (match lookupA s k with
            | some it => setAttr it a v
            | none => [("PK", ⟨k.PK⟩), ("SK", ⟨k.SK⟩), (a, v)]) := by
  induction s with
  | nil => simp [updateStore, lookupA]
  | cons p rest ih =>
    obtain ⟨k', it⟩ := p
    by_cases hk : k' = k
    · subst hk
      simp [updateStore, lookupA]
    · simp [updateStore, hk, lookupA, ih]

theorem lookupA_updateStore_ne (s : Store) {k k' : Key} (a : String)
    (v : AttrVal) (hne : k' ≠ k) :
    lookupA (updateStore s k a v) k' = lookupA s k' := by
  induction s with
  | nil => simp [updateStore, lookupA, Ne.symm hne]
  | cons p rest ih =>
    obtain ⟨k₀, it⟩ := p
    by_cases hk : k₀ = k
    · subst hk
      simp [updateStore, lookupA, Ne.symm hne]
    · by_cases hk' : k₀ = k'
      · simp [updateStore, hk, lookupA, hk', hne]
      · simp [updateStore, hk, lookupA, hk', ih]

theorem updateStore_id {s : Store} {k : Key} {a : String} {v : AttrVal}
    {it : Item} (hk : lookupA s k = some it) (ha : lookupA it a = some v) :
    updateStore s k a v = s := by
  induction s with
  | nil => simp [lookupA] at hk
  | cons p rest ih =>
    obtain ⟨k', it'⟩ := p
    by_cases hkk : k' = k
    · subst hkk
      simp [lookupA] at hk
      subst hk
      simp [updateStore, setAttr_id ha]
    · simp [lookupA, hkk] at hk
      simp [updateStore, hkk, ih hk]

theorem updateStore_keys {s : Store} {k : Key} {a : String} {v : AttrVal}
    (h : (lookupA s k).isSome) :
    (updateStore s k a v).map Prod.fst = s.map Prod.fst := by
  induction s with
  | nil => simp [lookupA] at h
  | cons p rest ih =>
    obtain ⟨k', it⟩ := p
    by_cases hk : k' = k
    · subst hk
      simp [updateStore]
    · simp [lookupA, hk] at h
      simp [updateStore, hk, ih h]

theorem lookupA_isSome_of_mem_keys {α β : Type} [DecidableEq α]
    {l : List (α × β)} {a : α} (h : a ∈ l.map Prod.fst) :
    (lookupA l a).isSome := by
  induction l with
  | nil => simp at h
  | cons p rest ih =>
    obtain ⟨k, v⟩ := p
    by_cases hk : k = a
    · simp [lookupA, hk]
    · simp only [List.map_cons, List.mem_cons] at h
      rcases h with h | h
      · exact absurd h.symm hk
      · simp [lookupA, hk, ih h]

theorem mem_keys_of_lookupA_isSome {α β : Type} [DecidableEq α]
    {l : List (α × β)} {a : α} (h : (lookupA l a).isSome) :
    a ∈ l.map Prod.fst := by
  induction l with
  | nil => simp [lookupA] at h
  | cons p rest ih =>
    obtain ⟨k, v⟩ := p
    by_cases hk : k = a
    · simp [hk]
    · simp [lookupA, hk] at h
      simp [ih h]

/-- Two distinct trip identifiers derive distinct record keys. -/
theorem tripKey_inj {t₁ t₂ : String} (h : tripKey t₁ = tripKey t₂) :
    t₁ = t₂ := by
  have hPK : "TRIP#" ++ t₁ = "TRIP#" ++ t₂ := congrArg Key.PK h
  have hdata : ("TRIP#" ++ t₁).data = ("TRIP#" ++ t₂).data :=
    congrArg String.data hPK
  simp only [String.data_append] at hdata
  have := List.append_cancel_left hdata
  cases t₁; cases t₂
  exact congrArg String.mk this

/-! ### Trace functions

Each of these computes, directly by recursion over the scan page, one
component of the observable trace of the loop; the master lemma below
shows the loop produces exactly these traces. -/

/-- An item is well formed when it carries both attributes the loop body
reads outside its `try` block. -/
def wfTrip (trip : Item) : Bool :=
  (lookupA trip "tripId").isSome && (lookupA trip "brokerId").isSome

/-- The update requests the loop issues, in scan order: one per item whose
`brokerId` resolves to a truthy name (issued whether or not the call then
raises). -/
def mappedRequests (names : List (String × String)) (tbl : String) :
    List Item → List UpdateRequest
  | [] => []
  | trip :: rest =>
    (match lookupA trip "tripId", lookupA trip "brokerId" with
     | some tv, some bv =>
       match lookupA names bv.S with
       | none => []
       | some name =>
         if name.isEmpty then []
         else [{ table := tbl,
                 key := tripKey tv.S,
                 updateExpression := "SET brokerName = :brokerName",
                 exprAttrValues := [(":brokerName", ⟨name⟩)] }]
     | _, _ => []) ++ mappedRequests names tbl rest

/-- The warnings the loop emits, in scan order: one `(brokerId, tripId)`
pair per item whose `brokerId` does not resolve to a truthy name. -/
def warningsOf (names : List (String × String)) :
    List Item → List (String × String)
  | [] => []
  | trip :: rest =>
    (match lookupA trip "tripId", lookupA trip "brokerId" with
     | some tv, some bv =>
       match lookupA names bv.S with
       | none => [(bv.S, tv.S)]
       | some name => if name.isEmpty then [(bv.S, tv.S)] else []
     | _, _ => []) ++ warningsOf names rest

/-- The `✗ Failed` log entries the loop emits, in scan order: the `tripId`
of each item whose update request is issued and raises. -/
def erroredFrom (names : List (String × String)) (err : Nat → Bool) :
    Nat → List Item → List String
  | _, [] => []
  | idx, trip :: rest =>
    (match lookupA trip "tripId", lookupA trip "brokerId" with
     | some tv, some bv =>
       match lookupA names bv.S with
       | none => []
       | some name =>
         if name.isEmpty then [] else if err idx then [tv.S] else []
     | _, _ => []) ++ erroredFrom names err (idx + 1) rest

/-- Master characterization of the loop's counters and trace: when the
loop completes, the requests, warnings and error logs are exactly the
trace functions above, every item lands in exactly one of the two
counters, and `failed` counts exactly the warnings plus the caught update
errors. -/
theorem runLoop_trace (names : List (String × String)) (tbl : String)
    (err : Nat → Bool) :
    ∀ (trips : List Item) (idx : Nat) (st st' : RunState),
    runLoop names tbl err idx st trips = some st' →
    st'.requests = st.requests ++ mappedRequests names tbl trips ∧
    st'.warnings = st.warnings ++ warningsOf names trips ∧
    st'.errors = st.errors ++ erroredFrom names err idx trips ∧
    st'.updated + st'.failed = st.updated + st.failed + trips.length ∧
    st'.failed = st.failed + (warningsOf names trips).length +
      (erroredFrom names err idx trips).length ∧
    st'.updated + (erroredFrom names err idx trips).length =
      st.updated + (mappedRequests names tbl trips).length := by
  intro trips
  induction trips with
  | nil =>
    intro idx st st' h
    simp only [runLoop] at h
    cases h
    simp [mappedRequests, warningsOf, erroredFrom]
  | cons trip rest ih =>
    intro idx st st' h
    simp only [runLoop] at h
    cases htv : lookupA trip "tripId" with
    | none => simp [processTrip, htv] at h
    | some tv =>
    cases hbv : lookupA trip "brokerId" with
    | none => simp [processTrip, htv, hbv] at h
    | some bv =>
    cases hname : lookupA names bv.S with
    | none =>
      simp only [processTrip, htv, hbv, hname] at h
      obtain ⟨h1, h2, h3, h4, h5, h6⟩ := ih _ _ _ h
      simp only [mappedRequests, warningsOf, erroredFrom, htv, hbv, hname]
      simp only [h1, h2, h3] at *
      refine ⟨by simp, by simp, by simp, ?_, ?_, ?_⟩ <;> simp at * <;> omega
    | some name =>
    by_cases hemp : name.isEmpty
    · simp only [processTrip, htv, hbv, hname, if_pos hemp] at h
      obtain ⟨h1, h2, h3, h4, h5, h6⟩ := ih _ _ _ h
      simp only [mappedRequests, warningsOf, erroredFrom, htv, hbv, hname,
        if_pos hemp]
      simp only [h1, h2, h3] at *
      refine ⟨by simp, by simp, by simp, ?_, ?_, ?_⟩ <;> simp at * <;> omega
    · cases herr : err idx with
      | true =>
        simp only [processTrip, htv, hbv, hname, if_neg hemp, herr,
          if_true] at h
        obtain ⟨h1, h2, h3, h4, h5, h6⟩ := ih _ _ _ h
        simp only [mappedRequests, warningsOf, erroredFrom, htv, hbv, hname,
          if_neg hemp, herr, if_true]
        simp only [h1, h2, h3] at *
        refine ⟨by simp, by simp, by simp, ?_, ?_, ?_⟩ <;> simp at * <;> omega
      | false =>
        simp only [processTrip, htv, hbv, hname, if_neg hemp, herr,
          Bool.false_eq_true, if_false] at h
        obtain ⟨h1, h2, h3, h4, h5, h6⟩ := ih _ _ _ h
        simp only [mappedRequests, warningsOf, erroredFrom, htv, hbv, hname,
          if_neg hemp, herr, Bool.false_eq_true, if_false]
        simp only [h1, h2, h3] at *
        refine ⟨by simp, by simp, by simp, ?_, ?_, ?_⟩ <;> simp at * <;> omega

/-- The loop never aborts on a page of well-formed items: the only
uncaught exceptions are the attribute `KeyError`s. -/
theorem runLoop_total (names : List (String × String)) (tbl : String)
    (err : Nat → Bool) :
    ∀ (trips : List Item) (idx : Nat) (st : RunState),
    (∀ trip ∈ trips, wfTrip trip = true) →
    ∃ st', runLoop names tbl err idx st trips = some st' := by
  intro trips
  induction trips with
  | nil => intro idx st _; exact ⟨st, rfl⟩
  | cons trip rest ih =>
    intro idx st hwf
    have hw := hwf trip (List.mem_cons_self _ _)
    simp only [wfTrip, Bool.and_eq_true, Option.isSome_iff_exists] at hw
    obtain ⟨⟨tv, htv⟩, bv, hbv⟩ := hw
    have hrest : ∀ t ∈ rest, wfTrip t = true :=
      fun t ht => hwf t (List.mem_cons_of_mem _ ht)
    cases hname : lookupA names bv.S with
    | none =>
      obtain ⟨st', h'⟩ := ih (idx + 1)
        { st with failed := st.failed + 1,
                  warnings := st.warnings ++ [(bv.S, tv.S)] } hrest
      exact ⟨st', by simp only [runLoop, processTrip, htv, hbv, hname]; exact h'⟩
    | some name =>
      by_cases hemp : name.isEmpty
      · obtain ⟨st', h'⟩ := ih (idx + 1)
          { st with failed := st.failed + 1,
                    warnings := st.warnings ++ [(bv.S, tv.S)] } hrest
        exact ⟨st', by
          simp only [runLoop, processTrip, htv, hbv, hname, if_pos hemp]
          exact h'⟩
      · cases herr : err idx with
        | true =>
          obtain ⟨st', h'⟩ := ih (idx + 1)
            { st with failed := st.failed + 1,
                      requests := st.requests ++
                        [{ table := tbl, key := tripKey tv.S,
                           updateExpression := "SET brokerName = :brokerName",
                           exprAttrValues := [(":brokerName", ⟨name⟩)] }],
                      errors := st.errors ++ [tv.S] } hrest
          exact ⟨st', by
            simp only [runLoop, processTrip, htv, hbv, hname, if_neg hemp,
              herr, if_true]
            exact h'⟩
        | false =>
          obtain ⟨st', h'⟩ := ih (idx + 1)
            { st with updated := st.updated + 1,
                      store := updateStore st.store (tripKey tv.S)
                        "brokerName" ⟨name⟩,
                      requests := st.requests ++
                        [{ table := tbl, key := tripKey tv.S,
                           updateExpression := "SET brokerName = :brokerName",
                           exprAttrValues := [(":brokerName", ⟨name⟩)] }] }
            hrest
          exact ⟨st', by
            simp only [runLoop, processTrip, htv, hbv, hname, if_neg hemp,
              herr, Bool.false_eq_true, if_false]
            exact h'⟩

/-- What one iteration leaves stored for its own record (when the record
was stored as scanned): mapped, truthy items get `brokerName` set, all
others are untouched. -/
def stepItem (names : List (String × String)) (trip : Item) : Item :=
  match lookupA trip "tripId" with
  | none => trip
  | some _ =>
    match lookupA trip "brokerId" with
    | none => trip
    | some bv =>
      match lookupA names bv.S with
      | none => trip
      | some name =>
        if name.isEmpty then trip else setAttr trip "brokerName" ⟨name⟩

/-- A completed loop implies every scanned item was well formed (an
ill-formed item raises an uncaught `KeyError` and aborts). -/
theorem runLoop_wf (names : List (String × String)) (tbl : String)
    (err : Nat → Bool) :
    ∀ (trips : List Item) (idx : Nat) (st st' : RunState),
    runLoop names tbl err idx st trips = some st' →
    ∀ trip ∈ trips, wfTrip trip = true := by
  intro trips
  induction trips with
  | nil => intro idx st st' _ trip htrip; simp at htrip
  | cons trip rest ih =>
    intro idx st st' h t ht
    simp only [runLoop] at h
    cases hp : processTrip names tbl (err idx) st trip with
    | none => simp [hp] at h
    | some st₁ =>
      simp only [hp] at h
      rcases List.mem_cons.mp ht with rfl | hmem
      · cases htv : lookupA t "tripId" with
        | none => simp [processTrip, htv] at hp
        | some tv =>
          cases hbv : lookupA t "brokerId" with
          | none => simp [processTrip, htv, hbv] at hp
          | some bv => simp [wfTrip, htv, hbv]
      · exact ih _ _ _ h t hmem

/-- Frame property of the loop on the store: a key that is not the derived
key of any scanned item that resolves to a truthy name is never touched. -/
theorem runLoop_frame (names : List (String × String)) (tbl : String)
    (err : Nat → Bool) :
    ∀ (trips : List Item) (idx : Nat) (st st' : RunState) (k : Key),
    runLoop names tbl err idx st trips = some st' →
    (∀ trip ∈ trips, ∀ tv bv name, lookupA trip "tripId" = some tv →
      lookupA trip "brokerId" = some bv →
      lookupA names bv.S = some name → name.isEmpty = false →
      tripKey tv.S ≠ k) →
    lookupA st'.store k = lookupA st.store k := by
  intro trips
  induction trips with
  | nil =>
    intro idx st st' k h _
    simp only [runLoop] at h
    cases h; rfl
  | cons trip rest ih =>
    intro idx st st' k h hk
    simp only [runLoop] at h
    have hkrest : ∀ t ∈ rest, ∀ tv bv name, lookupA t "tripId" = some tv →
        lookupA t "brokerId" = some bv →
        lookupA names bv.S = some name → name.isEmpty = false →
        tripKey tv.S ≠ k :=
      fun t ht => hk t (List.mem_cons_of_mem _ ht)
    cases htv : lookupA trip "tripId" with
    | none => simp [processTrip, htv] at h
    | some tv =>
    cases hbv : lookupA trip "brokerId" with
    | none => simp [processTrip, htv, hbv] at h
    | some bv =>
    cases hname : lookupA names bv.S with
    | none =>
      simp only [processTrip, htv, hbv, hname] at h
      rw [ih _ _ _ k h hkrest]
    | some name =>
    by_cases hemp : name.isEmpty
    · simp only [processTrip, htv, hbv, hname, if_pos hemp] at h
      rw [ih _ _ _ k h hkrest]
    · cases herr : err idx with
      | true =>
        simp only [processTrip, htv, hbv, hname, if_neg hemp, herr,
          if_true] at h
        rw [ih _ _ _ k h hkrest]
      | false =>
        simp only [processTrip, htv, hbv, hname, if_neg hemp, herr,
          Bool.false_eq_true, if_false] at h
        have hstep := ih _ _ _ k h hkrest
        rw [hstep]
        have hempf : name.isEmpty = false := by
          revert hemp
          cases name.isEmpty <;> simp
        exact lookupA_updateStore_ne _ _ _
          (Ne.symm (hk trip (List.mem_cons_self _ _) tv bv name htv hbv
            hname hempf))

/-- After a completed loop, the record of the `i`-th scanned item — when
its `brokerId` resolves to a truthy name and its own update call does not
raise — carries that name in `brokerName` (whether the record previously
existed or was upserted). -/
theorem runLoop_store_at (names : List (String × String)) (tbl : String)
    (err : Nat → Bool) :
    ∀ (trips : List Item) (idx : Nat) (st st' : RunState) (i : Nat)
      (h : i < trips.length) (tv bv : AttrVal) (name : String),
    runLoop names tbl err idx st trips = some st' →
    (trips.map tripIdOf).Nodup →
    lookupA (trips.get ⟨i, h⟩) "tripId" = some tv →
    lookupA (trips.get ⟨i, h⟩) "brokerId" = some bv →
    lookupA names bv.S = some name →
    name.isEmpty = false →
    err (idx + i) = false →
    ∃ it', lookupA st'.store (tripKey tv.S) = some it' ∧
      lookupA it' "brokerName" = some ⟨name⟩ := by
  intro trips
  induction trips with
  | nil => intro idx st st' i h; simp at h
  | cons trip rest ih =>
    intro idx st st' i h tv bv name hrun hnd htv hbv hname hemp herr
    simp only [runLoop] at hrun
    cases i with
    | succ j =>
      have hj : j < rest.length := by
        simp only [List.length_cons] at h; omega
      have htv' : lookupA (rest.get ⟨j, hj⟩) "tripId" = some tv := htv
      have hbv' : lookupA (rest.get ⟨j, hj⟩) "brokerId" = some bv := hbv
      cases hp : processTrip names tbl (err idx) st trip with
      | none => simp [hp] at hrun
      | some st₁ =>
        simp only [hp] at hrun
        have herr' : err (idx + 1 + j) = false := by
          have : idx + 1 + j = idx + (j + 1) := by omega
          rw [this]; exact herr
        exact ih (idx + 1) st₁ st' j hj tv bv name hrun
          (by rw [List.map_cons] at hnd; exact (List.nodup_cons.mp hnd).2)
          htv' hbv' hname hemp herr'
    | zero =>
      have htv0 : lookupA trip "tripId" = some tv := htv
      have hbv0 : lookupA trip "brokerId" = some bv := hbv
      have herr0 : err idx = false := by simpa using herr
      simp only [processTrip, htv0, hbv0, hname, hemp, Bool.false_eq_true,
        if_false, herr0] at hrun
      rw [List.map_cons] at hnd
      have hnd' := List.nodup_cons.mp hnd
      have hkrest : ∀ t ∈ rest, ∀ tv', lookupA t "tripId" = some tv' →
          tripKey tv'.S ≠ tripKey tv.S := by
        intro t ht tv' htv' hkey
        have hids : tv'.S = tv.S := tripKey_inj hkey
        have hmem : some tv.S ∈ rest.map tripIdOf := by
          have ht' : tripIdOf t = some tv'.S := by simp [tripIdOf, htv']
          have := List.mem_map_of_mem tripIdOf ht
          rw [ht', hids] at this
          exact this
        apply hnd'.1
        have htr : tripIdOf trip = some tv.S := by simp [tripIdOf, htv0]
        rw [htr]
        exact hmem
      have hframe := runLoop_frame names tbl err rest (idx + 1) _ st'
        (tripKey tv.S) hrun
        (fun t ht tv' bv' name' htv' _ _ _ => hkrest t ht tv' htv')
      rw [hframe]
      simp only [lookupA_updateStore_self]
      cases hprev : lookupA st.store (tripKey tv.S) with
      | some it =>
        exact ⟨setAttr it "brokerName" ⟨name⟩, rfl,
          lookupA_setAttr_self it "brokerName" ⟨name⟩⟩
      | none =>
        refine ⟨_, rfl, ?_⟩
        simp [lookupA]

/-! ### Idempotence machinery -/

theorem lookupA_stepItem_ne (names : List (String × String)) (trip : Item)
    {c : String} (hc : c ≠ "brokerName") :
    lookupA (stepItem names trip) c = lookupA trip c := by
  cases htv : lookupA trip "tripId" with
  | none => simp [stepItem, htv]
  | some tv =>
  cases hbv : lookupA trip "brokerId" with
  | none => simp [stepItem, htv, hbv]
  | some bv =>
  cases hname : lookupA names bv.S with
  | none => simp [stepItem, htv, hbv, hname]
  | some name =>
    by_cases hemp : name.isEmpty
    · simp [stepItem, htv, hbv, hname, hemp]
    · simp only [stepItem, htv, hbv, hname, hemp, Bool.false_eq_true,
        if_false]
      exact lookupA_setAttr_ne trip _ hc

theorem stepItem_tripId (names : List (String × String)) (trip : Item) :
    lookupA (stepItem names trip) "tripId" = lookupA trip "tripId" :=
  lookupA_stepItem_ne names trip (by decide)

theorem stepItem_brokerId (names : List (String × String)) (trip : Item) :
    lookupA (stepItem names trip) "brokerId" = lookupA trip "brokerId" :=
  lookupA_stepItem_ne names trip (by decide)

theorem stepItem_brokerName {names : List (String × String)} {trip : Item}
    {tv bv : AttrVal} {name : String}
    (htv : lookupA trip "tripId" = some tv)
    (hbv : lookupA trip "brokerId" = some bv)
    (hname : lookupA names bv.S = some name)
    (hemp : name.isEmpty = false) :
    lookupA (stepItem names trip) "brokerName" = some ⟨name⟩ := by
  unfold stepItem
  simp only [htv, hbv, hname, hemp, Bool.false_eq_true, if_false]
  exact lookupA_setAttr_self _ _ _

/-- With an error oracle that never fires, no `✗ Failed` entries are
logged. -/
theorem erroredFrom_false (names : List (String × String)) :
    ∀ (idx : Nat) (trips : List Item),
    erroredFrom names (fun _ => false) idx trips = [] := by
  intro idx trips
  induction trips generalizing idx with
  | nil => rfl
  | cons trip rest ih =>
    simp only [erroredFrom, ih]
    cases htv : lookupA trip "tripId" with
    | none => rfl
    | some tv =>
    cases hbv : lookupA trip "brokerId" with
    | none => rfl
    | some bv =>
    cases hname : lookupA names bv.S with
    | none => simp [hname]
    | some name => by_cases hemp : name.isEmpty <;> simp [hname, hemp]

/-- The post-run page resolves identically to the pre-run page. -/
theorem mappedRequests_map_stepItem (names : List (String × String))
    (tbl : String) (trips : List Item) :
    mappedRequests names tbl (trips.map (stepItem names)) =
      mappedRequests names tbl trips := by
  induction trips with
  | nil => rfl
  | cons trip rest ih =>
    simp only [List.map_cons, mappedRequests, ih,
      stepItem_tripId, stepItem_brokerId]

theorem warningsOf_map_stepItem (names : List (String × String))
    (trips : List Item) :
    warningsOf names (trips.map (stepItem names)) =
      warningsOf names trips := by
  induction trips with
  | nil => rfl
  | cons trip rest ih =>
    simp only [List.map_cons, warningsOf, ih,
      stepItem_tripId, stepItem_brokerId]

theorem wfTrip_stepItem (names : List (String × String)) (trip : Item) :
    wfTrip (stepItem names trip) = wfTrip trip := by
  simp [wfTrip, stepItem_tripId, stepItem_brokerId]

/-- After a completed all-successful run over a page of pairwise-distinct
trip identifiers, each scanned record — stored as scanned before the run —
is stored as its `stepItem` image. -/
theorem runLoop_store_items (names : List (String × String)) (tbl : String) :
    ∀ (trips : List Item) (idx : Nat) (st st' : RunState),
    runLoop names tbl (fun _ => false) idx st trips = some st' →
    (trips.map tripIdOf).Nodup →
    (∀ trip ∈ trips, ∀ tv, lookupA trip "tripId" = some tv →
      lookupA st.store (tripKey tv.S) = some trip) →
    ∀ trip ∈ trips, ∀ tv, lookupA trip "tripId" = some tv →
      lookupA st'.store (tripKey tv.S) = some (stepItem names trip) := by
  intro trips
  induction trips with
  | nil => intro idx st st' _ _ _ trip htrip; simp at htrip
  | cons trip rest ih =>
    intro idx st st' hrun hnd hmem t ht tv htv
    simp only [runLoop] at hrun
    rw [List.map_cons] at hnd
    have hnd' := List.nodup_cons.mp hnd
    cases htv0 : lookupA trip "tripId" with
    | none => simp [processTrip, htv0] at hrun
    | some tv0 =>
    cases hbv0 : lookupA trip "brokerId" with
    | none => simp [processTrip, htv0, hbv0] at hrun
    | some bv0 =>
    have hmem0 : lookupA st.store (tripKey tv0.S) = some trip :=
      hmem trip (List.mem_cons_self _ _) tv0 htv0
    have hkrest : ∀ u ∈ rest, ∀ uv, lookupA u "tripId" = some uv →
        tripKey uv.S ≠ tripKey tv0.S := by
      intro u hu uv huv hkey
      have hids : uv.S = tv0.S := tripKey_inj hkey
      apply hnd'.1
      have hu' : tripIdOf u = some tv0.S := by simp [tripIdOf, huv, hids]
      have := List.mem_map_of_mem tripIdOf hu
      rw [hu'] at this
      have htr : tripIdOf trip = some tv0.S := by simp [tripIdOf, htv0]
      rw [htr]
      exact this
    -- the state after processing the head, by cases on resolution
    cases hname : lookupA names bv0.S with
    | none =>
      simp only [processTrip, htv0, hbv0, hname] at hrun
      rcases List.mem_cons.mp ht with rfl | hmemt
      · have htveq : tv = tv0 := by
          rw [htv0] at htv
          exact (Option.some.inj htv).symm
        subst htveq
        have hframe := runLoop_frame names tbl (fun _ => false) rest
          (idx + 1) _ st' (tripKey tv.S) hrun
          (fun t ht tv' bv' name' htv' _ _ _ => hkrest t ht tv' htv')
        rw [hframe]
        show lookupA st.store (tripKey tv.S) = _
        rw [hmem0]
        simp [stepItem, htv0, hbv0, hname]
      · exact ih (idx + 1) _ st' hrun hnd'.2
          (fun u hu uv huv => hmem u (List.mem_cons_of_mem _ hu) uv huv)
          t hmemt tv htv
    | some name =>
    by_cases hemp : name.isEmpty
    · simp only [processTrip, htv0, hbv0, hname, if_pos hemp] at hrun
      rcases List.mem_cons.mp ht with rfl | hmemt
      · have htveq : tv = tv0 := by
          rw [htv0] at htv
          exact (Option.some.inj htv).symm
        subst htveq
        have hframe := runLoop_frame names tbl (fun _ => false) rest
          (idx + 1) _ st' (tripKey tv.S) hrun
          (fun t ht tv' bv' name' htv' _ _ _ => hkrest t ht tv' htv')
        rw [hframe]
        show lookupA st.store (tripKey tv.S) = _
        rw [hmem0]
        simp [stepItem, htv0, hbv0, hname, hemp]
      · exact ih (idx + 1) _ st' hrun hnd'.2
          (fun u hu uv huv => hmem u (List.mem_cons_of_mem _ hu) uv huv)
          t hmemt tv htv
    · have hempf : name.isEmpty = false := by
        revert hemp
        cases name.isEmpty <;> simp
      simp only [processTrip, htv0, hbv0, hname, hempf, Bool.false_eq_true,
        if_false] at hrun
      have hst₁ : lookupA (updateStore st.store (tripKey tv0.S)
          "brokerName" ⟨name⟩) (tripKey tv0.S) =
          some (stepItem names trip) := by
        rw [lookupA_updateStore_self]
        rw [hmem0]
        simp only [stepItem, htv0, hbv0, hname, hempf, Bool.false_eq_true,
          if_false]
      rcases List.mem_cons.mp ht with rfl | hmemt
      · have htveq : tv = tv0 := by
          rw [htv0] at htv
          exact (Option.some.inj htv).symm
        subst htveq
        have hframe := runLoop_frame names tbl (fun _ => false) rest
          (idx + 1) _ st' (tripKey tv.S) hrun
          (fun t ht tv' bv' name' htv' _ _ _ => hkrest t ht tv' htv')
        rw [hframe]
        exact hst₁
      · refine ih (idx + 1) _ st' hrun hnd'.2 ?_ t hmemt tv htv
        intro u hu uv huv
        show lookupA (updateStore st.store (tripKey tv0.S)
          "brokerName" ⟨name⟩) (tripKey uv.S) = some u
        rw [lookupA_updateStore_ne _ _ _ (hkrest u hu uv huv)]
        exact hmem u (List.mem_cons_of_mem _ hu) uv huv

/-- An all-successful run over records that already carry the resolved
name leaves the store untouched: each re-issued `SET brokerName` writes
the value already stored. -/
theorem runLoop_noop (names : List (String × String)) (tbl : String) :
    ∀ (trips : List Item) (idx : Nat) (st st' : RunState),
    runLoop names tbl (fun _ => false) idx st trips = some st' →
    (∀ trip ∈ trips, ∀ tv bv name, lookupA trip "tripId" = some tv →
      lookupA trip "brokerId" = some bv → lookupA names bv.S = some name →
      name.isEmpty = false →
      ∃ it, lookupA st.store (tripKey tv.S) = some it ∧
        lookupA it "brokerName" = some ⟨name⟩) →
    st'.store = st.store := by
  intro trips
  induction trips with
  | nil =>
    intro idx st st' hrun _
    simp only [runLoop] at hrun
    cases hrun; rfl
  | cons trip rest ih =>
    intro idx st st' hrun hstored
    simp only [runLoop] at hrun
    have hrest : ∀ u ∈ rest, ∀ tv bv name, lookupA u "tripId" = some tv →
        lookupA u "brokerId" = some bv → lookupA names bv.S = some name →
        name.isEmpty = false →
        ∃ it, lookupA st.store (tripKey tv.S) = some it ∧
          lookupA it "brokerName" = some ⟨name⟩ :=
      fun u hu => hstored u (List.mem_cons_of_mem _ hu)
    cases htv : lookupA trip "tripId" with
    | none => simp [processTrip, htv] at hrun
    | some tv =>
    cases hbv : lookupA trip "brokerId" with
    | none => simp [processTrip, htv, hbv] at hrun
    | some bv =>
    cases hname : lookupA names bv.S with
    | none =>
      simp only [processTrip, htv, hbv, hname] at hrun
      rw [ih _ _ _ hrun hrest]
    | some name =>
    by_cases hemp : name.isEmpty
    · simp only [processTrip, htv, hbv, hname, if_pos hemp] at hrun
      rw [ih _ _ _ hrun hrest]
    · have hempf : name.isEmpty = false := by
        revert hemp
        cases name.isEmpty <;> simp
      simp only [processTrip, htv, hbv, hname, hempf, Bool.false_eq_true,
        if_false] at hrun
      obtain ⟨it, hit, hbn⟩ :=
        hstored trip (List.mem_cons_self _ _) tv bv name htv hbv hname hempf
      rw [updateStore_id hit hbn] at hrun
      rw [ih _ _ _ hrun hrest]

/-! ### Membership in the traces -/

theorem mem_mappedRequests {names : List (String × String)} {tbl : String} :
    ∀ {trips : List Item} {req : UpdateRequest},
    req ∈ mappedRequests names tbl trips →
    ∃ trip ∈ trips, ∃ tv bv name,
      lookupA trip "tripId" = some tv ∧
      lookupA trip "brokerId" = some bv ∧
      lookupA names bv.S = some name ∧ name.isEmpty = false ∧
      req = { table := tbl, key := tripKey tv.S,
              updateExpression := "SET brokerName = :brokerName",
              exprAttrValues := [(":brokerName", ⟨name⟩)] } := by
  intro trips
  induction trips with
  | nil => intro req h; simp [mappedRequests] at h
  | cons trip rest ih =>
    intro req h
    simp only [mappedRequests, List.mem_append] at h
    rcases h with h | h
    · cases htv : lookupA trip "tripId" with
      | none => simp [htv] at h
      | some tv =>
      cases hbv : lookupA trip "brokerId" with
      | none => simp [htv, hbv] at h
      | some bv =>
      cases hname : lookupA names bv.S with
      | none => simp [htv, hbv, hname] at h
      | some name =>
        by_cases hemp : name.isEmpty
        · simp [htv, hbv, hname, hemp] at h
        · have hempf : name.isEmpty = false := by
            revert hemp
            cases name.isEmpty <;> simp
          simp only [htv, hbv, hname, hempf, Bool.false_eq_true, if_false,
            List.mem_singleton] at h
          exact ⟨trip, List.mem_cons_self _ _, tv, bv, name, htv, hbv,
            hname, hempf, h⟩
    · obtain ⟨u, hu, rest'⟩ := ih h
      exact ⟨u, List.mem_cons_of_mem _ hu, rest'⟩

theorem mem_warningsOf {names : List (String × String)} :
    ∀ {trips : List Item} {p : String × String},
    p ∈ warningsOf names trips →
    ∃ trip ∈ trips, ∃ tv bv,
      lookupA trip "tripId" = some tv ∧
      lookupA trip "brokerId" = some bv ∧ p = (bv.S, tv.S) := by
  intro trips
  induction trips with
  | nil => intro p h; simp [warningsOf] at h
  | cons trip rest ih =>
    intro p h
    simp only [warningsOf, List.mem_append] at h
    rcases h with h | h
    · cases htv : lookupA trip "tripId" with
      | none => simp [htv] at h
      | some tv =>
      cases hbv : lookupA trip "brokerId" with
      | none => simp [htv, hbv] at h
      | some bv =>
      cases hname : lookupA names bv.S with
      | none =>
        simp only [htv, hbv, hname, List.mem_singleton] at h
        exact ⟨trip, List.mem_cons_self _ _, tv, bv, htv, hbv, h⟩
      | some name =>
        by_cases hemp : name.isEmpty
        · simp only [htv, hbv, hname, if_pos hemp,
            List.mem_singleton] at h
          exact ⟨trip, List.mem_cons_self _ _, tv, bv, htv, hbv, h⟩
        · simp [htv, hbv, hname, hemp] at h
    · obtain ⟨u, hu, rest'⟩ := ih h
      exact ⟨u, List.mem_cons_of_mem _ hu, rest'⟩

theorem mem_erroredFrom {names : List (String × String)} {err : Nat → Bool} :
    ∀ {trips : List Item} {idx : Nat} {x : String},
    x ∈ erroredFrom names err idx trips →
    ∃ trip ∈ trips, ∃ tv bv name,
      lookupA trip "tripId" = some tv ∧ x = tv.S ∧
      lookupA trip "brokerId" = some bv ∧
      lookupA names bv.S = some name ∧ name.isEmpty = false := by
  intro trips
  induction trips with
  | nil => intro idx x h; simp [erroredFrom] at h
  | cons trip rest ih =>
    intro idx x h
    simp only [erroredFrom, List.mem_append] at h
    rcases h with h | h
    · cases htv : lookupA trip "tripId" with
      | none => simp [htv] at h
      | some tv =>
      cases hbv : lookupA trip "brokerId" with
      | none => simp [htv, hbv] at h
      | some bv =>
      cases hname : lookupA names bv.S with
      | none => simp [htv, hbv, hname] at h
      | some name =>
        by_cases hemp : name.isEmpty
        · simp [htv, hbv, hname, hemp] at h
        · have hempf : name.isEmpty = false := by
            revert hemp
            cases name.isEmpty <;> simp
          cases herr : err idx with
          | false => simp [htv, hbv, hname, hempf, herr] at h
          | true =>
            simp only [htv, hbv, hname, hempf, Bool.false_eq_true,
              if_false, herr, if_true, List.mem_singleton] at h
            exact ⟨trip, List.mem_cons_self _ _, tv, bv, name, htv, h,
              hbv, hname, hempf⟩
    · obtain ⟨u, hu, rest'⟩ := ih h
      exact ⟨u, List.mem_cons_of_mem _ hu, rest'⟩

/-- Number of occurrences of `a` in a list. -/
def countEq {α : Type} [DecidableEq α] (a : α) : List α → Nat
  | [] => 0
  | b :: rest => (if b = a then 1 else 0) + countEq a rest

theorem countEq_append {α : Type} [DecidableEq α] (a : α)
    (l₁ l₂ : List α) :
    countEq a (l₁ ++ l₂) = countEq a l₁ + countEq a l₂ := by
  induction l₁ with
  | nil => simp [countEq]
  | cons b rest ih => simp [countEq, ih]; omega

theorem countEq_eq_zero {α : Type} [DecidableEq α] {a : α} {l : List α}
    (h : a ∉ l) : countEq a l = 0 := by
  induction l with
  | nil => rfl
  | cons b rest ih =>
    have hb : b ≠ a := fun hba => h (hba ▸ List.mem_cons_self _ _)
    have hr : a ∉ rest := fun hm => h (List.mem_cons_of_mem _ hm)
    simp [countEq, hb, ih hr]

/-- Every name of the static broker mapping is a nonempty string, so a
present key always resolves to a truthy value. -/
theorem broker_names_truthy : ∀ p ∈ BROKER_NAMES, p.2.isEmpty = false := by
  decide

/-- Under pairwise-distinct trip identifiers, an item whose `brokerId` is
absent from the mapping produces its warning pair exactly once in the
whole warnings trace. -/
theorem warningsOf_count (names : List (String × String)) :
    ∀ (trips : List Item), (trips.map tripIdOf).Nodup →
    ∀ trip ∈ trips, ∀ tv bv,
    lookupA trip "tripId" = some tv →
    lookupA trip "brokerId" = some bv →
    lookupA names bv.S = none →
    countEq (bv.S, tv.S) (warningsOf names trips) = 1 := by
  intro trips
  induction trips with
  | nil => intro _ trip htrip; simp at htrip
  | cons head rest ih =>
    intro hnd trip htrip tv bv htv hbv habs
    rw [List.map_cons] at hnd
    have hnd' := List.nodup_cons.mp hnd
    rw [warningsOf, countEq_append]
    rcases List.mem_cons.mp htrip with rfl | hmem
    · have hzero : countEq (bv.S, tv.S) (warningsOf names rest) = 0 := by
        apply countEq_eq_zero
        intro hin
        obtain ⟨u, hu, tv', bv', htv', hbv', hp⟩ := mem_warningsOf hin
        have : tv'.S = tv.S := (congrArg Prod.snd hp).symm
        apply hnd'.1
        have hu' : tripIdOf u = some tv.S := by
          simp [tripIdOf, htv', this]
        have := List.mem_map_of_mem tripIdOf hu
        rw [hu'] at this
        have htr : tripIdOf trip = some tv.S := by simp [tripIdOf, htv]
        rw [htr]
        exact this
      rw [hzero]
      simp [htv, hbv, habs, countEq]
    · have hzero : countEq (bv.S, tv.S)
          (match lookupA head "tripId", lookupA head "brokerId" with
           | some tv₀, some bv₀ =>
             match lookupA names bv₀.S with
             | none => [(bv₀.S, tv₀.S)]
             | some name => if name.isEmpty then [(bv₀.S, tv₀.S)] else []
           | _, _ => []) = 0 := by
        have hne : ∀ tv₀ bv₀ : AttrVal, lookupA head "tripId" = some tv₀ →
            (bv₀.S, tv₀.S) ≠ (bv.S, tv.S) := by
          intro tv₀ bv₀ htv₀ hp
          have hts : tv₀.S = tv.S := congrArg Prod.snd hp
          apply hnd'.1
          have hh : tripIdOf head = some tv.S := by
            simp [tripIdOf, htv₀, hts]
          rw [hh]
          have := List.mem_map_of_mem tripIdOf hmem
          have htr : tripIdOf trip = some tv.S := by simp [tripIdOf, htv]
          rw [htr] at this
          exact this
        cases htv₀ : lookupA head "tripId" with
        | none => simp [countEq]
        | some tv₀ =>
        cases hbv₀ : lookupA head "brokerId" with
        | none => simp [countEq]
        | some bv₀ =>
        cases hname₀ : lookupA names bv₀.S with
        | none => simp [hname₀, countEq, hne tv₀ bv₀ htv₀]
        | some name₀ =>
          by_cases hemp₀ : name₀.isEmpty
          · simp [hname₀, hemp₀, countEq, hne tv₀ bv₀ htv₀]
          · simp [hname₀, hemp₀, countEq]
      rw [hzero]
      simp only [Nat.zero_add]
      exact ih hnd'.2 trip hmem tv bv htv hbv habs

/-- The loop only ever writes the `brokerName` attribute: when every
scanned record exists in the store, the key list of the store is
preserved (no creation, no deletion) and every attribute other than
`brokerName` of every record is unchanged. -/
theorem runLoop_only_brokerName (names : List (String × String))
    (tbl : String) (err : Nat → Bool) :
    ∀ (trips : List Item) (idx : Nat) (st st' : RunState),
    runLoop names tbl err idx st trips = some st' →
    (∀ trip ∈ trips, ∀ tv, lookupA trip "tripId" = some tv →
      (lookupA st.store (tripKey tv.S)).isSome) →
    st'.store.map Prod.fst = st.store.map Prod.fst ∧
    (∀ (k : Key) (it' : Item), lookupA st'.store k = some it' →
      ∃ it, lookupA st.store k = some it ∧
        ∀ a, a ≠ "brokerName" → lookupA it' a = lookupA it a) := by
  intro trips
  induction trips with
  | nil =>
    intro idx st st' hrun _
    simp only [runLoop] at hrun
    cases hrun
    exact ⟨rfl, fun k it' h => ⟨it', h, fun a _ => rfl⟩⟩
  | cons trip rest ih =>
    intro idx st st' hrun hex
    simp only [runLoop] at hrun
    have hexrest : ∀ u ∈ rest, ∀ tv, lookupA u "tripId" = some tv →
        (lookupA st.store (tripKey tv.S)).isSome :=
      fun u hu => hex u (List.mem_cons_of_mem _ hu)
    cases htv : lookupA trip "tripId" with
    | none => simp [processTrip, htv] at hrun
    | some tv =>
    cases hbv : lookupA trip "brokerId" with
    | none => simp [processTrip, htv, hbv] at hrun
    | some bv =>
    cases hname : lookupA names bv.S with
    | none =>
      simp only [processTrip, htv, hbv, hname] at hrun
      obtain ⟨ihk, ihit⟩ := ih _ _ _ hrun hexrest
      exact ⟨ihk, ihit⟩
    | some name =>
    by_cases hemp : name.isEmpty
    · simp only [processTrip, htv, hbv, hname, if_pos hemp] at hrun
      obtain ⟨ihk, ihit⟩ := ih _ _ _ hrun hexrest
      exact ⟨ihk, ihit⟩
    · have hempf : name.isEmpty = false := by
        revert hemp
        cases name.isEmpty <;> simp
      have hex0 : (lookupA st.store (tripKey tv.S)).isSome :=
        hex trip (List.mem_cons_self _ _) tv htv
      obtain ⟨it0, hit0⟩ := Option.isSome_iff_exists.mp hex0
      cases herr : err idx with
      | true =>
        simp only [processTrip, htv, hbv, hname, hempf, Bool.false_eq_true,
          if_false, herr, if_true] at hrun
        obtain ⟨ihk, ihit⟩ := ih _ _ _ hrun hexrest
        exact ⟨ihk, ihit⟩
      | false =>
        simp only [processTrip, htv, hbv, hname, hempf, Bool.false_eq_true,
          if_false, herr] at hrun
        have hkeys1 : (updateStore st.store (tripKey tv.S) "brokerName"
            ⟨name⟩).map Prod.fst = st.store.map Prod.fst :=
          updateStore_keys hex0
        have hexrest1 : ∀ u ∈ rest, ∀ uv, lookupA u "tripId" = some uv →
            (lookupA (updateStore st.store (tripKey tv.S) "brokerName"
              ⟨name⟩) (tripKey uv.S)).isSome := by
          intro u hu uv huv
          apply lookupA_isSome_of_mem_keys
          rw [hkeys1]
          exact mem_keys_of_lookupA_isSome (hexrest u hu uv huv)
        obtain ⟨ihk, ihit⟩ := ih _ _ _ hrun hexrest1
        constructor
        · rw [ihk]
          exact hkeys1
        · intro k it' hit'
          obtain ⟨it₁, hit₁, hattr₁⟩ := ihit k it' hit'
          by_cases hkk : k = tripKey tv.S
          · subst hkk
            rw [lookupA_updateStore_self, hit0] at hit₁
            refine ⟨it0, hit0, ?_⟩
            intro a ha
            rw [hattr₁ a ha]
            cases hit₁
            exact lookupA_setAttr_ne it0 _ ha
          · rw [lookupA_updateStore_ne _ _ _ hkk] at hit₁
            exact ⟨it₁, hit₁, hattr₁⟩

/-! ### The claims -/

/-- Claim C1: for every trip record returned by the scan whose `brokerId`
is a key of the static broker mapping, if the update request for that
record succeeds, then after the run completes the record's `brokerName`
attribute equals the name the mapping associates with that `brokerId`
(stated for scans whose trip identifiers are pairwise distinct, as scans
of a keyed table are). -/
theorem C1_mapped_broker_name_updated (page : List Item) (store : Store)
    (err : Nat → Bool) (st' : RunState) (i : Nat) (h : i < page.length)
    (tv bv : AttrVal) (name : String)
    (hrun : run BROKER_NAMES err page store = some st')
    (hnd : (page.map tripIdOf).Nodup)
    (htv : lookupA (page.get ⟨i, h⟩) "tripId" = some tv)
    (hbv : lookupA (page.get ⟨i, h⟩) "brokerId" = some bv)
    (hname : lookupA BROKER_NAMES bv.S = some name)
    (herr : err i = false) :
    ∃ it', lookupA st'.store (tripKey tv.S) = some it' ∧
      lookupA it' "brokerName" = some ⟨name⟩ := by
  have hemp : name.isEmpty = false :=
    broker_names_truthy (bv.S, name) (lookupA_mem hname)
  exact runLoop_store_at BROKER_NAMES TRIPS_TABLE err page 0
    (initState store) st' i h tv bv name hrun hnd htv hbv hname hemp
    (by simpa using herr)

/-- Claim C3: when the run completes, the final `updated` plus `failed`
counters equal the total number of items returned by the scan. -/
theorem C3_counters_partition_scan (page : List Item) (store : Store)
    (err : Nat → Bool) (st' : RunState)
    (hrun : run BROKER_NAMES err page store = some st') :
    st'.updated + st'.failed = page.length := by
  have h := (runLoop_trace BROKER_NAMES TRIPS_TABLE err page 0
    (initState store) st' hrun).2.2.2.1
  simpa [initState] using h

/-- Claim C4 counterexample: a per-item failure that is not raised by the
`update_item` call — here the `KeyError` from reading `brokerId` on the
first scanned item — is not caught: the run aborts and the remaining
(well-formed, mapped) item is never processed, so not every per-item
failure is caught and the loop over the remaining records is aborted. -/
theorem C4_per_item_failure_counterexample :
    run BROKER_NAMES (fun _ => false)
      [[("tripId", ⟨"T1"⟩)],
       [("tripId", ⟨"T2"⟩), ("brokerId", ⟨"broker-001"⟩)]] [] = none := by
  rfl

/-- Claim C4 (amended): for items carrying the `tripId` and `brokerId`
attributes, any error raised by the `update_item` call is caught and
logged, the `failed` counter counts it, and processing continues through
the whole page (the loop completes and classifies every item); errors
raised while reading the two attributes occur outside the `try` block and
abort the loop instead. -/
theorem C4_update_errors_caught (page : List Item) (store : Store)
    (err : Nat → Bool)
    (hwf : ∀ trip ∈ page, wfTrip trip = true) :
    ∃ st', run BROKER_NAMES err page store = some st' ∧
      st'.errors = erroredFrom BROKER_NAMES err 0 page ∧
      st'.failed = (warningsOf BROKER_NAMES page).length +
        (erroredFrom BROKER_NAMES err 0 page).length ∧
      st'.updated + st'.failed = page.length := by
  obtain ⟨st', h⟩ := runLoop_total BROKER_NAMES TRIPS_TABLE err page 0
    (initState store) hwf
  obtain ⟨h1, h2, h3, h4, h5, h6⟩ := runLoop_trace BROKER_NAMES TRIPS_TABLE
    err page 0 (initState store) st' h
  exact ⟨st', h, by simpa [initState] using h3,
    by simpa [initState] using h5, by simpa [initState] using h4⟩

/-- Claim C6: every update request issued by the run targets the table
`HaulHub-TripsTable-dev` (the `<Product>-TripsTable-<environment>`
convention instantiated at `dev`) and is keyed by partition key
`TRIP#<tripId>` for some scanned record's `tripId` and the literal sort
key `METADATA`. -/
theorem C6_request_table_and_key_shape (page : List Item) (store : Store)
    (err : Nat → Bool) (st' : RunState)
    (hrun : run BROKER_NAMES err page store = some st') :
    TRIPS_TABLE = "HaulHub-TripsTable-dev" ∧
    ∀ req ∈ st'.requests,
      req.table = "HaulHub-TripsTable-dev" ∧
      req.key.SK = "METADATA" ∧
      ∃ trip ∈ page, ∃ tv, lookupA trip "tripId" = some tv ∧
        req.key.PK = "TRIP#" ++ tv.S := by
  refine ⟨rfl, ?_⟩
  intro req hreq
  have hr := (runLoop_trace BROKER_NAMES TRIPS_TABLE err page 0
    (initState store) st' hrun).1
  rw [hr] at hreq
  simp only [initState, List.nil_append] at hreq
  obtain ⟨trip, htrip, tv, bv, name, htv, hbv, hname, hemp, heq⟩ :=
    mem_mappedRequests hreq
  subst heq
  exact ⟨rfl, rfl, trip, htrip, tv, htv, rfl⟩

/-- Claim C9: processing is strictly sequential in scan order — the
sequence of update requests emitted by the run is exactly the in-order
subsequence of requests for the scanned items that resolve to a truthy
name. -/
theorem C9_requests_in_scan_order (page : List Item) (store : Store)
    (err : Nat → Bool) (st' : RunState)
    (hrun : run BROKER_NAMES err page store = some st') :
    st'.requests = mappedRequests BROKER_NAMES TRIPS_TABLE page := by
  have h := (runLoop_trace BROKER_NAMES TRIPS_TABLE err page 0
    (initState store) st' hrun).1
  simpa [initState] using h

/-- Claim C10: a `brokerId` whose mapped name is falsy (the empty string)
is treated exactly as an absent `brokerId`: the loop body produces the
same state as with any mapping lacking the key — no update request, a
warning, and one `failed` increment — because the script tests the
looked-up value for truthiness, not the key for presence. -/
theorem C10_falsy_name_treated_as_absent
    (names names' : List (String × String)) (tbl : String) (e : Bool)
    (st : RunState) (trip : Item) (tv bv : AttrVal)
    (htv : lookupA trip "tripId" = some tv)
    (hbv : lookupA trip "brokerId" = some bv)
    (hfalsy : lookupA names bv.S = some "")
    (habsent : lookupA names' bv.S = none) :
    processTrip names tbl e st trip = processTrip names' tbl e st trip ∧
    processTrip names tbl e st trip =
      some { st with failed := st.failed + 1,
                     warnings := st.warnings ++ [(bv.S, tv.S)] } := by
  have hE : ("" : String).isEmpty = true := by decide
  constructor
  · simp [processTrip, htv, hbv, hfalsy, habsent, hE]
  · simp [processTrip, htv, hbv, hfalsy, hE]

/-- Claim C2: a scanned record whose `brokerId` is absent from the static
mapping is left untouched in the store (all attributes), no update request
targets its key, its warning pair appears exactly once, it contributes no
caught-update-error log entry, and the `failed` counter counts exactly the
warnings plus the caught update errors (stated for scans whose trip
identifiers are pairwise distinct). -/
theorem C2_unmapped_record_untouched (page : List Item) (store : Store)
    (err : Nat → Bool) (st' : RunState) (trip : Item) (tv bv : AttrVal)
    (hrun : run BROKER_NAMES err page store = some st')
    (hnd : (page.map tripIdOf).Nodup)
    (htrip : trip ∈ page)
    (htv : lookupA trip "tripId" = some tv)
    (hbv : lookupA trip "brokerId" = some bv)
    (habs : lookupA BROKER_NAMES bv.S = none) :
    lookupA st'.store (tripKey tv.S) = lookupA store (tripKey tv.S) ∧
    (∀ req ∈ st'.requests, req.key ≠ tripKey tv.S) ∧
    countEq (bv.S, tv.S) st'.warnings = 1 ∧
    countEq tv.S st'.errors = 0 ∧
    st'.failed = st'.warnings.length + st'.errors.length := by
  have hinj := List.inj_on_of_nodup_map hnd
  have honly : ∀ u ∈ page, ∀ uv bu nm, lookupA u "tripId" = some uv →
      lookupA u "brokerId" = some bu →
      lookupA BROKER_NAMES bu.S = some nm → nm.isEmpty = false →
      tripKey uv.S ≠ tripKey tv.S := by
    intro u hu uv bu nm huv hbu hnm _ hkey
    have hS : uv.S = tv.S := tripKey_inj hkey
    have hid : tripIdOf u = tripIdOf trip := by
      simp [tripIdOf, huv, htv, hS]
    have hut : u = trip := hinj hu htrip hid
    subst hut
    rw [hbu] at hbv
    cases hbv
    rw [hnm] at habs
    cases habs
  obtain ⟨h1, h2, h3, h4, h5, h6⟩ := runLoop_trace BROKER_NAMES TRIPS_TABLE
    err page 0 (initState store) st' hrun
  refine ⟨?_, ?_, ?_, ?_, ?_⟩
  · exact runLoop_frame BROKER_NAMES TRIPS_TABLE err page 0
      (initState store) st' (tripKey tv.S) hrun honly
  · intro req hreq hkey
    rw [h1] at hreq
    simp only [initState, List.nil_append] at hreq
    obtain ⟨u, hu, uv, bu, nm, huv, hbu, hnm, hnmemp, heq⟩ :=
      mem_mappedRequests hreq
    subst heq
    exact honly u hu uv bu nm huv hbu hnm hnmemp hkey
  · rw [h2]
    simp only [initState, List.nil_append]
    exact warningsOf_count BROKER_NAMES page hnd trip htrip tv bv htv hbv
      habs
  · rw [h3]
    simp only [initState, List.nil_append]
    apply countEq_eq_zero
    intro hin
    obtain ⟨u, hu, uv, bu, nm, huv, hS, hbu, hnm, _⟩ := mem_erroredFrom hin
    have hid : tripIdOf u = tripIdOf trip := by
      simp [tripIdOf, huv, htv, hS.symm]
    have hut : u = trip := hinj hu htrip hid
    subst hut
    rw [hbu] at hbv
    cases hbv
    rw [hnm] at habs
    cases habs
  · rw [h2, h3]
    simpa [initState] using h5

/-- Claim C7: the only attribute the script ever writes is `brokerName` —
every issued update request carries the literal expression
`SET brokerName = :brokerName` with a single bound value — and, when
every scanned record exists in the store, the run neither creates nor
deletes records (the store's key list is unchanged) and leaves every
attribute other than `brokerName` of every record unchanged. -/
theorem C7_only_brokerName_written (page : List Item) (store : Store)
    (err : Nat → Bool) (st' : RunState)
    (hrun : run BROKER_NAMES err page store = some st')
    (hex : ∀ trip ∈ page, ∀ tv, lookupA trip "tripId" = some tv →
      (lookupA store (tripKey tv.S)).isSome) :
    (∀ req ∈ st'.requests,
      req.updateExpression = "SET brokerName = :brokerName" ∧
      ∃ v, req.exprAttrValues = [(":brokerName", v)]) ∧
    st'.store.map Prod.fst = store.map Prod.fst ∧
    (∀ (k : Key) (it' : Item), lookupA st'.store k = some it' →
      ∃ it, lookupA store k = some it ∧
        ∀ a, a ≠ "brokerName" → lookupA it' a = lookupA it a) := by
  have h1 := (runLoop_trace BROKER_NAMES TRIPS_TABLE err page 0
    (initState store) st' hrun).1
  obtain ⟨hkeys, hattrs⟩ := runLoop_only_brokerName BROKER_NAMES TRIPS_TABLE
    err page 0 (initState store) st' hrun hex
  refine ⟨?_, hkeys, hattrs⟩
  intro req hreq
  rw [h1] at hreq
  simp only [initState, List.nil_append] at hreq
  obtain ⟨u, hu, uv, bu, nm, huv, hbu, hnm, hnmemp, heq⟩ :=
    mem_mappedRequests hreq
  subst heq
  exact ⟨rfl, ⟨nm⟩, rfl⟩

/-- Claim C8: the run processes exactly the items of the single scan
response — the store is unchanged at every key not derived from a scanned
item, and every issued update request is keyed by some scanned item's
`tripId`. -/
theorem C8_single_page_frame (page : List Item) (store : Store)
    (err : Nat → Bool) (st' : RunState)
    (hrun : run BROKER_NAMES err page store = some st') :
    (∀ k : Key, (∀ trip ∈ page, ∀ tv, lookupA trip "tripId" = some tv →
        tripKey tv.S ≠ k) →
      lookupA st'.store k = lookupA store k) ∧
    (∀ req ∈ st'.requests, ∃ trip ∈ page, ∃ tv,
      lookupA trip "tripId" = some tv ∧ req.key = tripKey tv.S) := by
  constructor
  · intro k hk
    exact runLoop_frame BROKER_NAMES TRIPS_TABLE err page 0
      (initState store) st' k hrun
      (fun t ht tv bv nm htv _ _ _ => hk t ht tv htv)
  · intro req hreq
    have h1 := (runLoop_trace BROKER_NAMES TRIPS_TABLE err page 0
      (initState store) st' hrun).1
    rw [h1] at hreq
    simp only [initState, List.nil_append] at hreq
    obtain ⟨u, hu, uv, bu, nm, huv, hbu, hnm, hnmemp, heq⟩ :=
      mem_mappedRequests hreq
    subst heq
    exact ⟨u, hu, uv, huv, rfl⟩

/-- Claim C5: running the script twice in succession, with the second
run's scan returning the records as left by the first run and all updates
succeeding, is idempotent — the post-first-run record of each scanned item
is exactly its `stepItem` image, and the second run over those records
completes with the same `updated`/`failed` classification, the identical
request sequence (re-setting identical values), and no store mutation at
all (stated for scans whose trip identifiers are pairwise distinct and
return the stored records). -/
theorem C5_second_run_idempotent (page : List Item) (store : Store)
    (st1 : RunState)
    (hrun1 : run BROKER_NAMES (fun _ => false) page store = some st1)
    (hnd : (page.map tripIdOf).Nodup)
    (hmem : ∀ trip ∈ page, ∀ tv, lookupA trip "tripId" = some tv →
      lookupA store (tripKey tv.S) = some trip) :
    (∀ trip ∈ page, ∀ tv, lookupA trip "tripId" = some tv →
      lookupA st1.store (tripKey tv.S) =
        some (stepItem BROKER_NAMES trip)) ∧
    ∃ st2, run BROKER_NAMES (fun _ => false)
        (page.map (stepItem BROKER_NAMES)) st1.store = some st2 ∧
      st2.updated = st1.updated ∧ st2.failed = st1.failed ∧
      st2.requests = st1.requests ∧ st2.store = st1.store := by
  have hstored := runLoop_store_items BROKER_NAMES TRIPS_TABLE page 0
    (initState store) st1 hrun1 hnd hmem
  refine ⟨hstored, ?_⟩
  have hwf : ∀ trip ∈ page, wfTrip trip = true :=
    runLoop_wf BROKER_NAMES TRIPS_TABLE (fun _ => false) page 0
      (initState store) st1 hrun1
  have hwf2 : ∀ u ∈ page.map (stepItem BROKER_NAMES), wfTrip u = true := by
    intro u hu
    obtain ⟨trip, htrip, rfl⟩ := List.mem_map.mp hu
    rw [wfTrip_stepItem]
    exact hwf trip htrip
  obtain ⟨st2, hrun2⟩ := runLoop_total BROKER_NAMES TRIPS_TABLE
    (fun _ => false) (page.map (stepItem BROKER_NAMES)) 0
    (initState st1.store) hwf2
  refine ⟨st2, hrun2, ?_⟩
  have hnoop : st2.store = (initState st1.store).store := by
    apply runLoop_noop BROKER_NAMES TRIPS_TABLE
      (page.map (stepItem BROKER_NAMES)) 0 (initState st1.store) st2 hrun2
    intro u hu uv bu nm huv hbu hnm hnmemp
    obtain ⟨trip, htrip, rfl⟩ := List.mem_map.mp hu
    rw [stepItem_tripId] at huv
    rw [stepItem_brokerId] at hbu
    refine ⟨stepItem BROKER_NAMES trip, ?_, ?_⟩
    · show lookupA st1.store (tripKey uv.S) = _
      exact hstored trip htrip uv huv
    · exact stepItem_brokerName huv hbu hnm hnmemp
  obtain ⟨g1, g2, g3, g4, g5, g6⟩ := runLoop_trace BROKER_NAMES TRIPS_TABLE
    (fun _ => false) page 0 (initState store) st1 hrun1
  obtain ⟨k1, k2, k3, k4, k5, k6⟩ := runLoop_trace BROKER_NAMES TRIPS_TABLE
    (fun _ => false) (page.map (stepItem BROKER_NAMES)) 0
    (initState st1.store) st2 hrun2
  rw [erroredFrom_false] at g3 g5 g6 k3 k5 k6
  rw [mappedRequests_map_stepItem] at k1 k6
  rw [warningsOf_map_stepItem] at k2 k5
  simp only [initState, List.nil_append, List.length_nil, Nat.add_zero,
    Nat.zero_add] at g1 g2 g5 g6 k1 k2 k5 k6
  refine ⟨?_, ?_, ?_, hnoop⟩
  · rw [k6, g6]
  · rw [k5, g5]
  · rw [k1, g1]

/-! ### Concrete fixtures and witnesses: each hypothesised claim theorem
applied at a concrete input -/

/-- A scanned item whose `brokerId` is a key of the mapping. -/
def tripT1 : Item := [("tripId", ⟨"T1"⟩), ("brokerId", ⟨"broker-001"⟩)]

/-- A scanned item whose `brokerId` is absent from the mapping. -/
def tripT2 : Item := [("tripId", ⟨"T2"⟩), ("brokerId", ⟨"broker-999"⟩)]

/-- A second mapped scanned item. -/
def tripT3 : Item := [("tripId", ⟨"T3"⟩), ("brokerId", ⟨"broker-002"⟩)]

/-- A one-record store holding `tripT1` under its derived key. -/
def storeT1 : Store := [(tripKey "T1", tripT1)]

theorem C1_mapped_broker_name_updated_witness :
    ∃ st', run BROKER_NAMES (fun _ => false) [tripT1] [] = some st' ∧
      ∃ it', lookupA st'.store (tripKey "T1") = some it' ∧
        lookupA it' "brokerName" = some ⟨"C.H. Robinson"⟩ := by
  refine ⟨_, rfl, ?_⟩
  exact C1_mapped_broker_name_updated [tripT1] [] (fun _ => false) _ 0
    (by decide) ⟨"T1"⟩ ⟨"broker-001"⟩ "C.H. Robinson" rfl (by decide)
    rfl rfl rfl rfl

theorem C2_unmapped_record_untouched_witness :
    ∃ st', run BROKER_NAMES (fun _ => false) [tripT2] [] = some st' ∧
      lookupA st'.store (tripKey "T2") =
        lookupA ([] : Store) (tripKey "T2") ∧
      (∀ req ∈ st'.requests, req.key ≠ tripKey "T2") ∧
      countEq ("broker-999", "T2") st'.warnings = 1 ∧
      countEq "T2" st'.errors = 0 ∧
      st'.failed = st'.warnings.length + st'.errors.length := by
  refine ⟨_, rfl, ?_⟩
  exact C2_unmapped_record_untouched [tripT2] [] (fun _ => false) _
    tripT2 ⟨"T2"⟩ ⟨"broker-999"⟩ rfl (by decide) (by decide) rfl rfl rfl

theorem C3_counters_partition_scan_witness :
    ∃ st', run BROKER_NAMES (fun _ => false) [tripT1, tripT2] [] =
        some st' ∧
      st'.updated + st'.failed = 2 := by
  refine ⟨_, rfl, ?_⟩
  exact C3_counters_partition_scan [tripT1, tripT2] [] (fun _ => false) _
    rfl

theorem C4_update_errors_caught_witness :
    (∀ trip ∈ [tripT1, tripT3], wfTrip trip = true) ∧
    ∃ st', run BROKER_NAMES (fun i => i == 0) [tripT1, tripT3] [] =
        some st' ∧
      st'.errors = erroredFrom BROKER_NAMES (fun i => i == 0) 0
        [tripT1, tripT3] ∧
      st'.failed = (warningsOf BROKER_NAMES [tripT1, tripT3]).length +
        (erroredFrom BROKER_NAMES (fun i => i == 0) 0
          [tripT1, tripT3]).length ∧
      st'.updated + st'.failed = 2 :=
  ⟨by decide,
   C4_update_errors_caught [tripT1, tripT3] [] (fun i => i == 0)
     (by decide)⟩

theorem C5_second_run_idempotent_witness :
    (∀ trip ∈ [tripT1], ∀ tv : AttrVal,
      lookupA trip "tripId" = some tv →
      lookupA storeT1 (tripKey tv.S) = some trip) ∧
    ∃ st1, run BROKER_NAMES (fun _ => false) [tripT1] storeT1 =
        some st1 ∧
      (∀ trip ∈ [tripT1], ∀ tv : AttrVal,
        lookupA trip "tripId" = some tv →
        lookupA st1.store (tripKey tv.S) =
          some (stepItem BROKER_NAMES trip)) ∧
      ∃ st2, run BROKER_NAMES (fun _ => false)
          ([tripT1].map (stepItem BROKER_NAMES)) st1.store = some st2 ∧
        st2.updated = st1.updated ∧ st2.failed = st1.failed ∧
        st2.requests = st1.requests ∧ st2.store = st1.store := by
  have hmem : ∀ trip ∈ [tripT1], ∀ tv : AttrVal,
      lookupA trip "tripId" = some tv →
      lookupA storeT1 (tripKey tv.S) = some trip := by
    intro trip htrip tv htv
    have heq : trip = tripT1 := by simpa using htrip
    subst heq
    have htv' : tv = ⟨"T1"⟩ := by
      have h : some (⟨"T1"⟩ : AttrVal) = some tv := htv
      exact (Option.some.inj h).symm
    subst htv'
    rfl
  refine ⟨hmem, _, rfl, ?_⟩
  obtain ⟨ha, hb⟩ := C5_second_run_idempotent [tripT1] storeT1 _ rfl
    (by decide) hmem
  exact ⟨ha, hb⟩

theorem C6_request_table_and_key_shape_witness :
    ∃ st', run BROKER_NAMES (fun _ => false) [tripT1] [] = some st' ∧
      TRIPS_TABLE = "HaulHub-TripsTable-dev" ∧
      ∀ req ∈ st'.requests,
        req.table = "HaulHub-TripsTable-dev" ∧
        req.key.SK = "METADATA" ∧
        ∃ trip ∈ [tripT1], ∃ tv, lookupA trip "tripId" = some tv ∧
          req.key.PK = "TRIP#" ++ tv.S := by
  refine ⟨_, rfl, ?_⟩
  exact C6_request_table_and_key_shape [tripT1] [] (fun _ => false) _ rfl

theorem C7_only_brokerName_written_witness :
    ∃ st', run BROKER_NAMES (fun _ => false) [tripT1] storeT1 =
        some st' ∧
      (∀ req ∈ st'.requests,
        req.updateExpression = "SET brokerName = :brokerName" ∧
        ∃ v, req.exprAttrValues = [(":brokerName", v)]) ∧
      st'.store.map Prod.fst = storeT1.map Prod.fst ∧
      (∀ (k : Key) (it' : Item), lookupA st'.store k = some it' →
        ∃ it, lookupA storeT1 k = some it ∧
          ∀ a, a ≠ "brokerName" → lookupA it' a = lookupA it a) := by
  have hex : ∀ trip ∈ [tripT1], ∀ tv : AttrVal,
      lookupA trip "tripId" = some tv →
      (lookupA storeT1 (tripKey tv.S)).isSome := by
    intro trip htrip tv htv
    have heq : trip = tripT1 := by simpa using htrip
    subst heq
    have htv' : tv = ⟨"T1"⟩ := by
      have h : some (⟨"T1"⟩ : AttrVal) = some tv := htv
      exact (Option.some.inj h).symm
    subst htv'
    rfl
  refine ⟨_, rfl, ?_⟩
  exact C7_only_brokerName_written [tripT1] storeT1 (fun _ => false) _
    rfl hex

theorem C8_single_page_frame_witness :
    ∃ st', run BROKER_NAMES (fun _ => false) [tripT1] [] = some st' ∧
      (∀ k : Key, (∀ trip ∈ [tripT1], ∀ tv : AttrVal,
          lookupA trip "tripId" = some tv → tripKey tv.S ≠ k) →
        lookupA st'.store k = lookupA ([] : Store) k) ∧
      (∀ req ∈ st'.requests, ∃ trip ∈ [tripT1], ∃ tv,
        lookupA trip "tripId" = some tv ∧ req.key = tripKey tv.S) := by
  refine ⟨_, rfl, ?_⟩
  exact C8_single_page_frame [tripT1] [] (fun _ => false) _ rfl

theorem C9_requests_in_scan_order_witness :
    ∃ st', run BROKER_NAMES (fun _ => false) [tripT1, tripT2] [] =
        some st' ∧
      st'.requests = mappedRequests BROKER_NAMES TRIPS_TABLE
        [tripT1, tripT2] := by
  refine ⟨_, rfl, ?_⟩
  exact C9_requests_in_scan_order [tripT1, tripT2] [] (fun _ => false) _
    rfl

theorem C10_falsy_name_treated_as_absent_witness :
    processTrip [("broker-xyz", "")] TRIPS_TABLE false (initState [])
        [("tripId", ⟨"T9"⟩), ("brokerId", ⟨"broker-xyz"⟩)] =
      processTrip [] TRIPS_TABLE false (initState [])
        [("tripId", ⟨"T9"⟩), ("brokerId", ⟨"broker-xyz"⟩)] ∧
    processTrip [("broker-xyz", "")] TRIPS_TABLE false (initState [])
        [("tripId", ⟨"T9"⟩), ("brokerId", ⟨"broker-xyz"⟩)] =
      some { (initState []) with
             failed := (initState []).failed + 1,
             warnings := (initState ([] : Store)).warnings ++
               [("broker-xyz", "T9")] } :=
  C10_falsy_name_treated_as_absent [("broker-xyz", "")] [] TRIPS_TABLE
    false (initState []) [("tripId", ⟨"T9"⟩), ("brokerId", ⟨"broker-xyz"⟩)]
    ⟨"T9"⟩ ⟨"broker-xyz"⟩ rfl rfl rfl rfl

end FixBrokerNames
